import Mathlib

/-!
Verification of `query-k8s-container-image-history`.

Shallow embedding of the Go sources (`cmd/main.go`,
`internal/docker-image-history/query-cluster.go`, and the older duplicated
`main.go`).  The two Go copies of the pipeline differ only in that the
internal package takes the ECR region list as a parameter instead of a
package-level variable; the embedding follows the internal package and is
parameterised by the region list, which subsumes both copies.

External collaborators (the Kubernetes pod-listing API, the Docker
pull/history/remove APIs, the AWS ECR token API) are modelled as inputs:
the pod list, the decoded pull-event stream, the per-image history and the
per-region token-fetch outcome are arguments of the embedded functions.
Wall-clock time in the pull loop is modelled by a fuel parameter counting
the loop iterations that happen before the 10-minute deadline expires.
-/

/-! ## Go string primitives

`strings.Contains`, `strings.ToLower` and `strings.Split` (single-character
separator), modelled on `List Char`.  Go's `ToLower` is Unicode-aware; the
model covers its ASCII behaviour, which is all the repository's keyword
comparisons rely on.
-/

/-- `charsStartWith s sub` : `sub` is an initial segment of `s`. -/
def charsStartWith : List Char → List Char → Bool
  | _, [] => true
  | [], _ :: _ => false
  | a :: as, b :: bs => a == b && charsStartWith as bs

/-- `charsContain s sub` : `sub` occurs contiguously inside `s`. -/
def charsContain (s sub : List Char) : Bool :=
  match s with
  | [] => charsStartWith [] sub
  | c :: rest => charsStartWith (c :: rest) sub || charsContain rest sub

/-- Go `strings.Contains s sub`. -/
def goContains (s sub : String) : Bool :=
  charsContain s.data sub.data

/-- Go `strings.ToLower` (ASCII fragment). -/
def goToLower (s : String) : String :=
  ⟨s.data.map Char.toLower⟩

/-- Go `strings.Split s sep` for a one-character separator: splits around
every occurrence of `sep`; an input without `sep` yields the one-element
list `[s]`. -/
def goSplitChar (sep : Char) : List Char → List (List Char)
  | [] => [[]]
  | c :: rest =>
    if c = sep then [] :: goSplitChar sep rest
    else
      match goSplitChar sep rest with
      | [] => [[c]]
      | g :: gs => (c :: g) :: gs

/-- `cmd/main.go` `parseFlags`: `strings.Split(dockerImageKeyWordsFlag, ",")`
(applied when the flag value is non-empty). -/
def splitKeywords (flagValue : String) : List String :=
  (goSplitChar ',' flagValue.data).map (fun cs => ⟨cs⟩)

/-! ## Data model (`config.go` / `main.go` type declarations) -/

/-- `podDetails`: K8s provenance for an image occurrence. -/
structure PodDetails where
  podName : String
  containerName : String
  namespace_ : String
deriving DecidableEq

/-- One container of a pod spec (`container.Name`, `container.Image`). -/
structure K8sContainer where
  name : String
  image : String
deriving DecidableEq

/-- One pod returned by the cluster listing (`pod.Name`, `pod.Namespace`,
`pod.Spec.Containers`). -/
structure K8sPod where
  name : String
  namespace_ : String
  containers : List K8sContainer
deriving DecidableEq

/-- `offendingDockerImage`: the audit result for one image.  The Go
`map[string]int` (absent keys read as `0`) is modelled as a total function
to `Nat`. -/
structure OffendingDockerImage where
  matchFound : Bool
  imageRef : String
  matchedKeywords : String → Nat

/-- The nested `progressDetail` struct of `Event`. -/
structure EventProgressDetail where
  Current : Int
  Total : Int
deriving DecidableEq

/-- `Event`: one decoded Docker image-pull progress event. -/
structure Event where
  Status : String
  Error : String
  Progress : String
  ProgressDetail : EventProgressDetail
deriving DecidableEq

/-! Go `map[string]string` is modelled as an association list with
insert-or-replace and a `""` default on lookup (a missing key reads as the
zero value), and `map[string][]podDetails` likewise with a `[]` default. -/

/-- Insert-or-replace into a string-valued map. -/
def mapInsert (m : List (String × String)) (k v : String) : List (String × String) :=
  match m with
  | [] => [(k, v)]
  | (k', v') :: rest => if k' = k then (k, v) :: rest else (k', v') :: mapInsert rest k v

/-- Lookup in a string-valued map; a missing key yields `""` (Go zero value). -/
def mapLookup (m : List (String × String)) (k : String) : String :=
  match m with
  | [] => ""
  | (k', v) :: rest => if k' = k then v else mapLookup rest k

/-- Append `pd` to the slice stored at `img` (Go
`m[img] = append(m[img], pd)`; a missing key reads as `nil`). -/
def imagesInsert (m : List (String × List PodDetails)) (img : String) (pd : PodDetails) :
    List (String × List PodDetails) :=
  match m with
  | [] => [(img, [pd])]
  | (k, v) :: rest => if k = img then (k, v ++ [pd]) :: rest else (k, v) :: imagesInsert rest img pd

/-- Lookup in the image map; a missing key yields `[]`. -/
def lookupImages (m : List (String × List PodDetails)) (img : String) : List PodDetails :=
  match m with
  | [] => []
  | (k, v) :: rest => if k = img then v else lookupImages rest img

/-! ## Cluster scanner (`queryAllContainerImageRefsInCluster`) -/

/-- The provenance tuple recorded for one (pod, container) occurrence. -/
def podDetailsOf (pod : K8sPod) (container : K8sContainer) : PodDetails :=
  { podName := pod.name, containerName := container.name, namespace_ := pod.namespace_ }

/-- `queryAllContainerImageRefsInCluster`: for every pod and every container
of its spec, append the provenance tuple to the map entry of the container's
image reference. -/
def queryAllContainerImageRefsInCluster (pods : List K8sPod) :
    List (String × List PodDetails) :=
  pods.foldl
    (fun m pod =>
      pod.containers.foldl
        (fun m container => imagesInsert m container.image (podDetailsOf pod container)) m)
    []

/-- The (image, provenance) pairs in cluster discovery order. -/
def containerEntries (pods : List K8sPod) : List (String × PodDetails) :=
  pods.flatMap (fun pod => pod.containers.map (fun c => (c.image, podDetailsOf pod c)))

/-! ## Keyword matching (`checkImageHistoryForKeyWords`) -/

/-- The per-(layer, keyword) test:
`strings.Contains(strings.ToLower(h.CreatedBy), strings.ToLower(keyword))`. -/
def keywordMatches (createdBy keyword : String) : Bool :=
  goContains (goToLower createdBy) (goToLower keyword)

/-- Body of the inner loop of `checkImageHistoryForKeyWords`: on a match,
set `matchFound`, record the image reference and bump the keyword's count. -/
def checkKeyword (imageRef createdBy : String) (result : OffendingDockerImage)
    (keyword : String) : OffendingDockerImage :=
  if keywordMatches createdBy keyword then
    { matchFound := true, imageRef := imageRef,
      matchedKeywords := fun k =>
        if k = keyword then result.matchedKeywords k + 1 else result.matchedKeywords k }
  else result

/-- Inner loop over the configured keywords for one history layer. -/
def checkLayer (imageRef : String) (keywords : List String)
    (result : OffendingDockerImage) (createdBy : String) : OffendingDockerImage :=
  keywords.foldl (checkKeyword imageRef createdBy) result

/-- `checkImageHistoryForKeyWords`, given the layer `CreatedBy` texts that
the Docker history call returned for `imageRef`.  The initial result is the
Go zero value with an empty count map. -/
def checkImageHistoryForKeyWords (keywords : List String) (imageRef : String)
    (history : List String) : OffendingDockerImage :=
  history.foldl (checkLayer imageRef keywords)
    { matchFound := false, imageRef := "", matchedKeywords := fun _ => 0 }

/-! ## Image pull (`pullImage`) -/

/-- The terminal-status test of the pull loop:
`strings.Contains(event.Status, "Downloaded newer image") ||
 strings.Contains(event.Status, "Image is up to date")`. -/
def terminalStatus (s : String) : Bool :=
  goContains s "Downloaded newer image" || goContains s "Image is up to date"

/-- One call of `d.Decode(&event)` on the pull-event stream: either a
successfully decoded event or a decode error other than `io.EOF`.
End-of-stream (`io.EOF`, returned on every decode once the stream is
exhausted) is represented by the stream list running out. -/
inductive DecodeResult where
  | ok (e : Event)
  | decodeFail (msg : String)
deriving DecidableEq

/-- Outcome of `pullImage`.  `nilPanic` is not a return value of the Go
function: it marks the run-time nil-pointer dereference of `event.Status`
when the loop inspects `event` while it is still `nil`. -/
inductive PullOutcome where
  | success
  | unsupportedRegionErr
  | timeoutErr
  | decodeErr (msg : String)
  | nilPanic
deriving DecidableEq

/-- The decode-and-poll loop of `pullImage`.  `event` is the Go `*Event`
variable (`none` = `nil`, nothing decoded yet); `fuel` counts the loop
iterations that still start before the 10-minute deadline, so reaching `0`
is the `time.Now().After(timeout)` check firing.  On `io.EOF` the loop does
not return: it falls through and re-inspects the last decoded event, which
is the nil dereference when no event was ever decoded. -/
def pullLoop : List DecodeResult → Option Event → Nat → PullOutcome
  | _, _, 0 => PullOutcome.timeoutErr
  | [], none, _ + 1 => PullOutcome.nilPanic
  | [], some e, fuel + 1 =>
      if terminalStatus e.Status then PullOutcome.success else pullLoop [] (some e) fuel
  | DecodeResult.decodeFail msg :: _, _, _ + 1 => PullOutcome.decodeErr msg
  | DecodeResult.ok e :: rest, _, fuel + 1 =>
      if terminalStatus e.Status then PullOutcome.success else pullLoop rest (some e) fuel

/-- The pull loop run on a stream of well-formed events (every decode before
end-of-stream succeeds), starting from `event = nil`. -/
def pullEvents (events : List Event) (fuel : Nat) : PullOutcome :=
  pullLoop (events.map DecodeResult.ok) none fuel

/-- The `RegistryAuth` value chosen by the credential-selection block at the
top of `pullImage`. -/
inductive AuthSelection where
  | noAuth
  | auth (blob : String)
  | unsupportedRegion
deriving DecidableEq

/-- The per-region hostname pattern
`fmt.Sprintf("dkr.ecr.%s.amazonaws.com", region)`. -/
def regionPattern (region : String) : String :=
  "dkr.ecr." ++ region ++ ".amazonaws.com"

/-- Credential selection of `pullImage`: for an image containing
`amazonaws.com`, scan all configured regions, overwriting
`pullOptions.RegistryAuth` with `c.ecrCredentials[region]` on each pattern
match (the loop has no break, so the last matching region wins); if none
matched, the "unsupported ECR image region" error.  Other images get no
credential. -/
def selectPullAuth (ecrRegions : List String) (ecrCredentials : List (String × String))
    (imageReference : String) : AuthSelection :=
  if goContains imageReference "amazonaws.com" then
    let final := ecrRegions.foldl
      (fun (st : String × Bool) region =>
        if goContains imageReference (regionPattern region) then
          (mapLookup ecrCredentials region, true)
        else st)
      ("", false)
    if final.2 then AuthSelection.auth final.1 else AuthSelection.unsupportedRegion
  else AuthSelection.noAuth

/-- The last configured region whose `dkr.ecr.<region>.amazonaws.com`
pattern occurs in the image reference (the one whose credential the
selection loop leaves in `RegistryAuth`), if any. -/
def lastMatchedRegion (imageReference : String) : List String → Option String
  | [] => none
  | region :: rest =>
    match lastMatchedRegion imageReference rest with
    | some r => some r
    | none =>
      if goContains imageReference (regionPattern region) then some region else none

/-- `pullImage`: region/credential selection, then the event-poll loop.
The `ImagePull` API call itself is an external collaborator; its event
stream is the `stream` argument. -/
def pullImage (ecrRegions : List String) (ecrCredentials : List (String × String))
    (imageReference : String) (stream : List DecodeResult) (fuel : Nat) : PullOutcome :=
  match selectPullAuth ecrRegions ecrCredentials imageReference with
  | AuthSelection.unsupportedRegion => PullOutcome.unsupportedRegionErr
  | _ => pullLoop stream none fuel

/-! ## Credential provisioner (the region loop of `NewConfig`) -/

/-- What the environment returns for one region: an error from
`config.LoadDefaultConfig` / `ecrClient.GetAuthorizationToken`, a base64
decode error, or the successfully fetched and base64-decoded authorization
token (the `user:password` blob).  Fetching and stdlib base64 decoding are
collapsed into this input because every claim quantifies over the decoded
token. -/
inductive TokenFetch where
  | fetchErr (msg : String)
  | decodeErr (msg : String)
  | token (decoded : String)

/-- Outcome of the provisioning loop.  `panicIndex` marks the run-time
"index out of range" panic of `credentialsSlice[1]`, not a Go return
value. -/
inductive ProvisionOutcome where
  | ok (creds : List (String × String))
  | err (msg : String)
  | panicIndex
deriving DecidableEq

/-- One hexadecimal digit, lower case (as `encoding/json` writes
`\u00XX` escapes). -/
def hexDigit (n : Nat) : Char :=
  "0123456789abcdef".data.getD n '0'

/-- `encoding/json` string escaping (`Marshal` default, HTML escaping on)
for one character: `"` and `\` are backslash-escaped, newline, carriage
return and tab get their short escapes, other control characters and the
HTML characters get `\u00XX`, everything else passes through. -/
def jsonEscapeChar (c : Char) : List Char :=
  if c = '"' then ['\\', '"']
  else if c = '\\' then ['\\', '\\']
  else if c = '\n' then ['\\', 'n']
  else if c = '\r' then ['\\', 'r']
  else if c = '\t' then ['\\', 't']
  else if c.toNat < 32 || c = '<' || c = '>' || c = '&' then
    ['\\', 'u', '0', '0', hexDigit (c.toNat / 16), hexDigit (c.toNat % 16)]
  else [c]

/-- `json.Marshal(map[string]string{"username": "AWS", "password": password})`:
Go marshals map keys in sorted order, so `password` precedes `username`. -/
def marshalCredJSON (password : String) : String :=
  ⟨"\x7b\"password\":\"".data ++ password.data.flatMap jsonEscapeChar ++
    "\",\"username\":\"AWS\"\x7d".data⟩

/-- The standard base64 alphabet. -/
def base64Chars : List Char :=
  "ABCDEFGHIJKLMNOPQRSTUVWXYZabcdefghijklmnopqrstuvwxyz0123456789+/".data

/-- One base64 alphabet character. -/
def b64c (n : Nat) : Char :=
  base64Chars.getD n '='

/-- `base64.StdEncoding.EncodeToString` over a byte list. -/
def base64Encode : List Nat → List Char
  | [] => []
  | [a] => [b64c (a / 4), b64c (a % 4 * 16), '=', '=']
  | [a, b] => [b64c (a / 4), b64c (a % 4 * 16 + b / 16), b64c (b % 16 * 4), '=']
  | a :: b :: c :: rest =>
      b64c (a / 4) :: b64c (a % 4 * 16 + b / 16) :: b64c (b % 16 * 4 + c / 64) ::
        b64c (c % 64) :: base64Encode rest

/-- The login blob stored per region:
`base64.StdEncoding.EncodeToString(jsonBytes)` for the marshalled
username/password map. -/
def encodeCred (password : String) : String :=
  ⟨base64Encode ((marshalCredJSON password).toUTF8.toList.map (fun b => b.toNat))⟩

/-- The region loop of `NewConfig`: for each configured region, obtain the
decoded authorization token, split it on `":"`, take element `1` as the
password (an out-of-range panic when the token holds no colon), and store
the re-encoded login blob under the region key.  Any fetch/decode error
aborts with an error (fail-fast, no partial-credential mode). -/
def provisionCredentials (env : String → TokenFetch) :
    List String → List (String × String) → ProvisionOutcome
  | [], acc => ProvisionOutcome.ok acc
  | region :: rest, acc =>
    match env region with
    | TokenFetch.fetchErr msg => ProvisionOutcome.err ("getting ECR auth token: " ++ msg)
    | TokenFetch.decodeErr msg => ProvisionOutcome.err ("decoding ECR auth token: " ++ msg)
    | TokenFetch.token t =>
      match goSplitChar ':' t.data with
      | _ :: password :: _ =>
          provisionCredentials env rest (mapInsert acc region (encodeCred ⟨password⟩))
      | _ => ProvisionOutcome.panicIndex

/-! ## Reporter (`outputNonECRImages`, `outputOffendingImages`) and the
per-image pipeline loop of `ProcessAllImagesHistoryForKeywords` -/

/-- One provenance group
`(podName: %s, containerName: %s, namespace: %s) `. -/
def formatPodDetail (pd : PodDetails) : String :=
  "(podName: " ++ pd.podName ++ ", containerName: " ++ pd.containerName ++
    ", namespace: " ++ pd.namespace_ ++ ") "

/-- One line of the non-ECR report: the image reference verbatim, a tab,
every provenance group, a newline. -/
def formatNonECRLine (img : String) (details : List PodDetails) : String :=
  img ++ "\t" ++ String.join (details.map formatPodDetail) ++ "\n"

/-- The entries `outputNonECRImages` selects: exactly the images whose
reference does not contain `amazonaws.com`. -/
def nonECRReportEntries (dockerImages : List (String × List PodDetails)) :
    List (String × List PodDetails) :=
  dockerImages.filter (fun e => !goContains e.1 "amazonaws.com")

/-- `outputNonECRImages` as the list of lines written to the report file:
for each image of the map (with the map's unspecified iteration order
determinised to entry order), skip it if it contains `amazonaws.com`, else
write its line. -/
def outputNonECRImages (dockerImages : List (String × List PodDetails)) : List String :=
  dockerImages.foldl
    (fun acc e =>
      if !goContains e.1 "amazonaws.com" then acc ++ [formatNonECRLine e.1 e.2] else acc)
    []

/-- What `outputOffendingImages` produces: a report file when at least one
image matched, otherwise only the console notice
`"No images matched keywords. Nothing to output."` and no file. -/
inductive OffendingReport where
  | file (entries : List OffendingDockerImage)
  | consoleNotice

/-- `outputOffendingImages`: the `len(c.offendingDockerImages) > 0` guard
around file creation. -/
def outputOffendingImages (offending : List OffendingDockerImage) : OffendingReport :=
  if offending.length > 0 then OffendingReport.file offending else OffendingReport.consoleNotice

/-- The per-image loop of `ProcessAllImagesHistoryForKeywords`, restricted
to its accumulation of audit results: each image is checked against the
keywords and appended to `offendingDockerImages` only when `matchFound`.
`histories` is the Docker history collaborator (pull and cleanup are
external effects with no bearing on the accumulated results when they
succeed). -/
def processImages (keywords : List String) (histories : String → List String)
    (images : List String) : List OffendingDockerImage :=
  images.foldl
    (fun acc img =>
      let result := checkImageHistoryForKeyWords keywords img (histories img)
      if result.matchFound then acc ++ [result] else acc)
    []

/-! ## Lemmas: keyword matching -/

theorem checkKeyword_matchedKeywords (imageRef createdBy : String)
    (r : OffendingDockerImage) (kw k : String) :
    (checkKeyword imageRef createdBy r kw).matchedKeywords k =
      r.matchedKeywords k +
        (if k = kw ∧ keywordMatches createdBy kw = true then 1 else 0) := by
  by_cases hm : keywordMatches createdBy kw = true
  · by_cases hk : k = kw <;> simp [checkKeyword, hm, hk]
  · simp [checkKeyword, hm]

theorem checkKeyword_matchFound (imageRef createdBy : String)
    (r : OffendingDockerImage) (kw : String) :
    (checkKeyword imageRef createdBy r kw).matchFound =
      (r.matchFound || keywordMatches createdBy kw) := by
  by_cases hm : keywordMatches createdBy kw = true
  · simp [checkKeyword, hm]
  · simp [checkKeyword, hm, Bool.eq_false_iff.mpr hm]

theorem checkLayer_matchedKeywords (imageRef createdBy k : String)
    (keywords : List String) (r : OffendingDockerImage) :
    (checkLayer imageRef keywords r createdBy).matchedKeywords k =
      r.matchedKeywords k +
        (if keywordMatches createdBy k = true then keywords.count k else 0) := by
  induction keywords generalizing r with
  | nil => simp [checkLayer]
  | cons kw rest ih =>
    simp only [checkLayer] at ih ⊢
    rw [List.foldl_cons, ih, checkKeyword_matchedKeywords, List.count_cons]
    by_cases hk : k = kw
    · subst hk
      by_cases hm : keywordMatches createdBy k = true
      · simp [hm]
        omega
      · simp [hm]
    · have : (kw == k) = false := beq_false_of_ne (Ne.symm hk)
      by_cases hm : keywordMatches createdBy k = true <;> simp [hk, hm, this]

theorem checkLayer_matchFound (imageRef createdBy : String)
    (keywords : List String) (r : OffendingDockerImage) :
    (checkLayer imageRef keywords r createdBy).matchFound =
      (r.matchFound || keywords.any (fun kw => keywordMatches createdBy kw)) := by
  induction keywords generalizing r with
  | nil => simp [checkLayer]
  | cons kw rest ih =>
    simp only [checkLayer] at ih ⊢
    rw [List.foldl_cons, ih, checkKeyword_matchFound, List.any_cons, Bool.or_assoc]

theorem checkHistory_matchedKeywords (imageRef k : String) (keywords : List String)
    (history : List String) (r : OffendingDockerImage) :
    (history.foldl (checkLayer imageRef keywords) r).matchedKeywords k =
      r.matchedKeywords k +
        history.countP (fun h => keywordMatches h k) * keywords.count k := by
  induction history generalizing r with
  | nil => simp
  | cons h rest ih =>
    rw [List.foldl_cons, ih, checkLayer_matchedKeywords, List.countP_cons]
    by_cases hm : keywordMatches h k = true
    · simp [hm]
      ring
    · simp [hm]

theorem checkHistory_matchFound (imageRef : String) (keywords : List String)
    (history : List String) (r : OffendingDockerImage) :
    (history.foldl (checkLayer imageRef keywords) r).matchFound =
      (r.matchFound ||
        history.any (fun h => keywords.any (fun kw => keywordMatches h kw))) := by
  induction history generalizing r with
  | nil => simp
  | cons h rest ih =>
    rw [List.foldl_cons, ih, checkLayer_matchFound, List.any_cons, Bool.or_assoc]

/-- Claim C3: for every image history and configured keyword list (with the
keyword occurring once in the list, as derived from distinct flag values),
`checkImageHistoryForKeyWords` matches each keyword case-insensitively as a
substring of each layer's `CreatedBy` text, the keyword's recorded count is
the number of matching layers, and `matchFound` holds exactly when some
layer matches some keyword. -/
theorem checkImageHistory_counts (keywords : List String) (imageRef kw : String)
    (history : List String) (hcount : keywords.count kw = 1) :
    (checkImageHistoryForKeyWords keywords imageRef history).matchedKeywords kw =
      history.countP (fun h => keywordMatches h kw) ∧
    (checkImageHistoryForKeyWords keywords imageRef history).matchFound =
      history.any (fun h => keywords.any (fun k => keywordMatches h k)) := by
  constructor
  · rw [checkImageHistoryForKeyWords, checkHistory_matchedKeywords, hcount]
    simp
  · rw [checkImageHistoryForKeyWords, checkHistory_matchFound]
    simp

/-- Witness for C3: three layers each containing `jdk-14` (in varying case)
give a count of 3 and a positive match. -/
theorem checkImageHistory_counts_witness :
    (["jdk-14"].count "jdk-14" = 1) ∧
    ((checkImageHistoryForKeyWords ["jdk-14"] "img"
        ["RUN install JDK-14", "COPY jdk-14 /opt", "ENV P=/opt/Jdk-14/bin"]).matchedKeywords
          "jdk-14" =
      ["RUN install JDK-14", "COPY jdk-14 /opt", "ENV P=/opt/Jdk-14/bin"].countP
        (fun h => keywordMatches h "jdk-14")) ∧
    ((checkImageHistoryForKeyWords ["jdk-14"] "img"
        ["RUN install JDK-14", "COPY jdk-14 /opt", "ENV P=/opt/Jdk-14/bin"]).matchFound =
      ["RUN install JDK-14", "COPY jdk-14 /opt", "ENV P=/opt/Jdk-14/bin"].any
        (fun h => ["jdk-14"].any (fun k => keywordMatches h k))) ∧
    ["RUN install JDK-14", "COPY jdk-14 /opt", "ENV P=/opt/Jdk-14/bin"].countP
        (fun h => keywordMatches h "jdk-14") = 3 ∧
    ["RUN install JDK-14", "COPY jdk-14 /opt", "ENV P=/opt/Jdk-14/bin"].any
        (fun h => ["jdk-14"].any (fun k => keywordMatches h k)) = true :=
  ⟨by decide,
   (checkImageHistory_counts ["jdk-14"] "img" "jdk-14"
      ["RUN install JDK-14", "COPY jdk-14 /opt", "ENV P=/opt/Jdk-14/bin"] (by decide)).1,
   (checkImageHistory_counts ["jdk-14"] "img" "jdk-14"
      ["RUN install JDK-14", "COPY jdk-14 /opt", "ENV P=/opt/Jdk-14/bin"] (by decide)).2,
   by decide, by decide⟩

theorem charsContain_nil (s : List Char) : charsContain s [] = true := by
  cases s <;> simp [charsContain, charsStartWith]

theorem keywordMatches_empty (createdBy : String) :
    keywordMatches createdBy "" = true := by
  have hd : ("" : String).data = [] := rfl
  simp [keywordMatches, goContains, goToLower, hd, charsContain_nil]

/-- Claim C9: an empty keyword (as produced by a trailing or doubled comma
in the comma-split `dockerImageKeyWords` flag value) matches every layer,
so any image with a non-empty history is marked as a match, with the empty
keyword counted once per layer. -/
theorem empty_keyword_matches_all (flagValue imageRef : String) (history : List String)
    (hcount : (splitKeywords flagValue).count "" = 1) (hne : history ≠ []) :
    (checkImageHistoryForKeyWords (splitKeywords flagValue) imageRef history).matchFound =
      true ∧
    (checkImageHistoryForKeyWords (splitKeywords flagValue) imageRef history).matchedKeywords
      "" = history.length := by
  have hmem : "" ∈ splitKeywords flagValue :=
    List.count_pos_iff.mp (by omega)
  obtain ⟨hd, hdmem⟩ := List.exists_mem_of_ne_nil history hne
  constructor
  · rw [checkImageHistoryForKeyWords, checkHistory_matchFound]
    have : history.any
        (fun h => (splitKeywords flagValue).any (fun kw => keywordMatches h kw)) = true :=
      List.any_eq_true.mpr
        ⟨hd, hdmem, List.any_eq_true.mpr ⟨"", hmem, keywordMatches_empty hd⟩⟩
    simp [this]
  · rw [checkImageHistoryForKeyWords, checkHistory_matchedKeywords, hcount]
    have : history.countP (fun h => keywordMatches h "") = history.length :=
      List.countP_eq_length.mpr (fun a _ => keywordMatches_empty a)
    simp [this]

/-- Witness for C9: the flag value `"jdk-14,"` splits into `["jdk-14", ""]`,
and a one-layer history that mentions no keyword still matches. -/
theorem empty_keyword_matches_all_witness :
    ((splitKeywords "jdk-14,").count "" = 1) ∧ (["RUN echo hello"] ≠ ([] : List String)) ∧
    (checkImageHistoryForKeyWords (splitKeywords "jdk-14,") "img"
        ["RUN echo hello"]).matchFound = true ∧
    (checkImageHistoryForKeyWords (splitKeywords "jdk-14,") "img"
        ["RUN echo hello"]).matchedKeywords "" = ["RUN echo hello"].length :=
  ⟨by decide, by decide,
   (empty_keyword_matches_all "jdk-14," "img" ["RUN echo hello"] (by decide) (by decide)).1,
   (empty_keyword_matches_all "jdk-14," "img" ["RUN echo hello"] (by decide) (by decide)).2⟩

/-! ## Lemmas: the pull-event loop -/

theorem pullLoop_stalls (e : Event) (h : terminalStatus e.Status = false) (fuel : Nat) :
    pullLoop [] (some e) fuel = PullOutcome.timeoutErr := by
  induction fuel with
  | zero => rfl
  | succ n ih => simp [pullLoop, h, ih]

theorem pullLoop_ok_stream (events : List Event) (acc : Option Event) (fuel : Nat)
    (hne : events ≠ []) :
    pullLoop (events.map DecodeResult.ok) acc fuel =
      if events.findIdx (fun e => terminalStatus e.Status) < fuel ∧
          events.any (fun e => terminalStatus e.Status) = true
      then PullOutcome.success else PullOutcome.timeoutErr := by
  induction events generalizing acc fuel with
  | nil => exact absurd rfl hne
  | cons e rest ih =>
    cases fuel with
    | zero => simp [pullLoop]
    | succ n =>
      by_cases ht : terminalStatus e.Status = true
      · simp [pullLoop, ht, List.findIdx_cons]
      · have ht' : terminalStatus e.Status = false := Bool.eq_false_iff.mpr ht
        cases rest with
        | nil =>
          simp [pullLoop, ht', pullLoop_stalls e ht', List.findIdx_cons]
        | cons e2 rest2 =>
          have step : pullLoop ((e :: e2 :: rest2).map DecodeResult.ok) acc (n + 1) =
              pullLoop ((e2 :: rest2).map DecodeResult.ok) (some e) n := by
            simp [pullLoop, ht']
          rw [step, ih (some e) n (by simp)]
          simp [List.findIdx_cons, ht', Nat.succ_lt_succ_iff]

/-- A pull event carrying only a status text (the other fields are the Go
zero values, as for a status-only progress message). -/
def mkStatusEvent (s : String) : Event :=
  { Status := s, Error := "", Progress := "",
    ProgressDetail := { Current := 0, Total := 0 } }

/-- Claim C1 (amended): over a well-formed event stream from which at least
one event is decoded, the pull loop returns success exactly when a status
event containing `"Downloaded newer image"` or `"Image is up to date"` is
observed before the 10-minute deadline (the first such event lies within
the iteration budget), and otherwise returns the timeout error once the
deadline passes.  (As stated the claim also covered the stream that ends
before any event is decoded, where the loop instead crashes on a nil event
— see the counterexample.) -/
theorem pullEvents_success_or_timeout (events : List Event) (fuel : Nat)
    (hne : events ≠ []) :
    pullEvents events fuel =
      if events.findIdx (fun e => terminalStatus e.Status) < fuel ∧
          events.any (fun e => terminalStatus e.Status) = true
      then PullOutcome.success else PullOutcome.timeoutErr :=
  pullLoop_ok_stream events none fuel hne

/-- Witness for C1: a stream whose first event is terminal succeeds within
a one-iteration budget; the same check also evaluates a non-terminal
stream to the timeout error. -/
theorem pullEvents_success_or_timeout_witness :
    ([mkStatusEvent "Status: Downloaded newer image for alpine:3.19"] ≠ ([] : List Event)) ∧
    pullEvents [mkStatusEvent "Status: Downloaded newer image for alpine:3.19"] 1 =
      (if [mkStatusEvent "Status: Downloaded newer image for alpine:3.19"].findIdx
            (fun e => terminalStatus e.Status) < 1 ∧
          [mkStatusEvent "Status: Downloaded newer image for alpine:3.19"].any
            (fun e => terminalStatus e.Status) = true
       then PullOutcome.success else PullOutcome.timeoutErr) ∧
    pullEvents [mkStatusEvent "Status: Downloaded newer image for alpine:3.19"] 1 =
      PullOutcome.success :=
  ⟨by decide,
   pullEvents_success_or_timeout
     [mkStatusEvent "Status: Downloaded newer image for alpine:3.19"] 1 (by decide),
   by decide⟩

/-- Counterexample to C1 as stated: the event stream that ends before any
event is decoded observes no terminal status event, yet the loop does not
return the timeout error (nor success): it dereferences the nil `event`
pointer on its first iteration, before the deadline. -/
theorem pullEvents_empty_stream_not_timeout :
    pullEvents ([] : List Event) 1 = PullOutcome.nilPanic ∧
    PullOutcome.nilPanic ≠ PullOutcome.timeoutErr ∧
    PullOutcome.nilPanic ≠ PullOutcome.success :=
  ⟨rfl, by decide, by decide⟩

/-- Claim C2: on an event stream that reaches end-of-stream before any
event is decoded, the loop treats the `io.EOF` decode error as
non-returning and goes on to inspect `event.Status` while `event` is still
nil — the nil-dereference crash — instead of returning an error value. -/
theorem pullLoop_nil_dereference (fuel : Nat) (h : 1 ≤ fuel) :
    pullEvents [] fuel = PullOutcome.nilPanic := by
  cases fuel with
  | zero => omega
  | succ n => rfl

/-- Witness for C2 at a one-iteration budget. -/
theorem pullLoop_nil_dereference_witness :
    1 ≤ 1 ∧ pullEvents [] 1 = PullOutcome.nilPanic :=
  ⟨by decide, pullLoop_nil_dereference 1 (by decide)⟩

/-! ## Lemmas: credential selection in `pullImage` -/

theorem selectLoop_lastMatched (image : String) (creds : List (String × String))
    (regions : List String) (st : String × Bool) :
    regions.foldl
      (fun (st : String × Bool) region =>
        if goContains image (regionPattern region) then (mapLookup creds region, true)
        else st)
      st =
      (match lastMatchedRegion image regions with
       | some r => (mapLookup creds r, true)
       | none => st) := by
  induction regions generalizing st with
  | nil => rfl
  | cons region rest ih =>
    rw [List.foldl_cons, ih]
    cases h : lastMatchedRegion image rest with
    | some r => simp [lastMatchedRegion, h]
    | none =>
      by_cases hp : goContains image (regionPattern region) = true
      · simp [lastMatchedRegion, h, hp]
      · simp [lastMatchedRegion, h, Bool.eq_false_iff.mpr hp]

/-- Claim C5: for an image reference in the private-registry family (it
contains `amazonaws.com`), `pullImage` attaches the credential of the
configured region whose `dkr.ecr.<region>.amazonaws.com` pattern matches
the reference (the last such region if several match); if no configured
region matches, it returns the "unsupported ECR image region" error without
running the pull loop at all. -/
theorem pullImage_region_selection (ecrRegions : List String)
    (creds : List (String × String)) (image : String) (stream : List DecodeResult)
    (fuel : Nat) (him : goContains image "amazonaws.com" = true) :
    selectPullAuth ecrRegions creds image =
      (match lastMatchedRegion image ecrRegions with
       | some r => AuthSelection.auth (mapLookup creds r)
       | none => AuthSelection.unsupportedRegion) ∧
    pullImage ecrRegions creds image stream fuel =
      (match lastMatchedRegion image ecrRegions with
       | some _ => pullLoop stream none fuel
       | none => PullOutcome.unsupportedRegionErr) := by
  have hsel : selectPullAuth ecrRegions creds image =
      (match lastMatchedRegion image ecrRegions with
       | some r => AuthSelection.auth (mapLookup creds r)
       | none => AuthSelection.unsupportedRegion) := by
    simp only [selectPullAuth, him, if_true, selectLoop_lastMatched]
    cases h : lastMatchedRegion image ecrRegions <;> simp
  refine ⟨hsel, ?_⟩
  unfold pullImage
  rw [hsel]
  cases h : lastMatchedRegion image ecrRegions <;> simp

/-- Witness for C5: with regions `eu-west-1` and `ap-southeast-2`
configured, the `eu-west-1` image gets exactly the `eu-west-1` credential,
and an image from an unconfigured region makes `pullImage` fail with the
unsupported-region error without touching the event stream. -/
theorem pullImage_region_selection_witness :
    goContains "12345.dkr.ecr.eu-west-1.amazonaws.com/foo:1.0" "amazonaws.com" = true ∧
    (selectPullAuth ["eu-west-1", "ap-southeast-2"]
        [("eu-west-1", "BLOB1"), ("ap-southeast-2", "BLOB2")]
        "12345.dkr.ecr.eu-west-1.amazonaws.com/foo:1.0" =
      (match lastMatchedRegion "12345.dkr.ecr.eu-west-1.amazonaws.com/foo:1.0"
          ["eu-west-1", "ap-southeast-2"] with
       | some r =>
          AuthSelection.auth
            (mapLookup [("eu-west-1", "BLOB1"), ("ap-southeast-2", "BLOB2")] r)
       | none => AuthSelection.unsupportedRegion) ∧
     pullImage ["eu-west-1", "ap-southeast-2"]
        [("eu-west-1", "BLOB1"), ("ap-southeast-2", "BLOB2")]
        "12345.dkr.ecr.eu-west-1.amazonaws.com/foo:1.0" [] 0 =
      (match lastMatchedRegion "12345.dkr.ecr.eu-west-1.amazonaws.com/foo:1.0"
          ["eu-west-1", "ap-southeast-2"] with
       | some _ => pullLoop [] none 0
       | none => PullOutcome.unsupportedRegionErr)) ∧
    selectPullAuth ["eu-west-1", "ap-southeast-2"]
        [("eu-west-1", "BLOB1"), ("ap-southeast-2", "BLOB2")]
        "12345.dkr.ecr.eu-west-1.amazonaws.com/foo:1.0" = AuthSelection.auth "BLOB1" ∧
    pullImage ["eu-west-1", "ap-southeast-2"]
        [("eu-west-1", "BLOB1"), ("ap-southeast-2", "BLOB2")]
        "12345.dkr.ecr.us-east-1.amazonaws.com/foo:1.0" [] 9 =
      PullOutcome.unsupportedRegionErr :=
  ⟨by decide,
   pullImage_region_selection ["eu-west-1", "ap-southeast-2"]
     [("eu-west-1", "BLOB1"), ("ap-southeast-2", "BLOB2")]
     "12345.dkr.ecr.eu-west-1.amazonaws.com/foo:1.0" [] 0 (by decide),
   by decide, by decide⟩

/-! ## Lemmas: cluster-scan deduplication -/

theorem lookupImages_imagesInsert (m : List (String × List PodDetails))
    (k a : String) (pd : PodDetails) :
    lookupImages (imagesInsert m k pd) a =
      if a = k then lookupImages m a ++ [pd] else lookupImages m a := by
  induction m with
  | nil =>
    by_cases h : a = k
    · simp [imagesInsert, lookupImages, h]
    · simp [imagesInsert, lookupImages, h, Ne.symm h]
  | cons e rest ih =>
    obtain ⟨k', v⟩ := e
    by_cases hk : k' = k
    · subst hk
      by_cases ha : a = k'
      · simp [imagesInsert, lookupImages, ha]
      · simp [imagesInsert, lookupImages, ha, Ne.symm ha]
    · by_cases ha : k' = a
      · subst ha
        simp [imagesInsert, lookupImages, hk, Ne.symm hk]
      · simp [imagesInsert, lookupImages, hk, ha, ih]

theorem mem_keys_imagesInsert (m : List (String × List PodDetails))
    (k a : String) (pd : PodDetails) :
    a ∈ (imagesInsert m k pd).map Prod.fst ↔ a ∈ m.map Prod.fst ∨ a = k := by
  induction m with
  | nil => simp [imagesInsert]
  | cons e rest ih =>
    obtain ⟨k', v⟩ := e
    by_cases hk : k' = k
    · subst hk
      constructor
      · intro h
        rcases (by simpa [imagesInsert] using h) with h | h
        · exact Or.inr h
        · exact Or.inl (by simp [h])
      · intro h
        rcases h with h | h
        · rcases (by simpa using h) with h | h
          · simp [imagesInsert, h]
          · simp [imagesInsert, h]
        · simp [imagesInsert, h]
    · simp only [imagesInsert, if_neg hk, List.map_cons, List.mem_cons, ih]
      tauto

theorem nodup_keys_imagesInsert (m : List (String × List PodDetails))
    (k : String) (pd : PodDetails) (h : (m.map Prod.fst).Nodup) :
    ((imagesInsert m k pd).map Prod.fst).Nodup := by
  induction m with
  | nil => simp [imagesInsert]
  | cons e rest ih =>
    obtain ⟨k', v⟩ := e
    rw [List.map_cons, List.nodup_cons] at h
    by_cases hk : k' = k
    · subst hk
      simpa [imagesInsert] using h
    · rw [imagesInsert, if_neg hk, List.map_cons, List.nodup_cons]
      refine ⟨?_, ih h.2⟩
      intro hmem
      rcases (mem_keys_imagesInsert rest k k' pd).mp hmem with hm | hm
      · exact h.1 hm
      · exact hk hm

theorem lookupImages_entriesFold (entries : List (String × PodDetails))
    (m : List (String × List PodDetails)) (a : String) :
    lookupImages (entries.foldl (fun m e => imagesInsert m e.1 e.2) m) a =
      lookupImages m a ++ (entries.filter (fun e => e.1 == a)).map Prod.snd := by
  induction entries generalizing m with
  | nil => simp
  | cons e rest ih =>
    obtain ⟨k, pd⟩ := e
    rw [List.foldl_cons, ih, lookupImages_imagesInsert]
    by_cases ha : a = k
    · subst ha
      simp [List.filter_cons]
    · have : (k == a) = false := beq_false_of_ne (Ne.symm ha)
      simp [List.filter_cons, this, ha]

theorem nodup_keys_entriesFold (entries : List (String × PodDetails))
    (m : List (String × List PodDetails)) (h : (m.map Prod.fst).Nodup) :
    (((entries.foldl (fun m e => imagesInsert m e.1 e.2) m)).map Prod.fst).Nodup := by
  induction entries generalizing m with
  | nil => simpa
  | cons e rest ih => exact ih _ (nodup_keys_imagesInsert m e.1 e.2 h)

theorem queryAll_eq_entriesFold (pods : List K8sPod) :
    queryAllContainerImageRefsInCluster pods =
      (containerEntries pods).foldl (fun m e => imagesInsert m e.1 e.2) [] := by
  suffices h : ∀ (pods : List K8sPod) (m : List (String × List PodDetails)),
      pods.foldl
        (fun m pod =>
          pod.containers.foldl
            (fun m container => imagesInsert m container.image (podDetailsOf pod container)) m)
        m =
      (containerEntries pods).foldl (fun m e => imagesInsert m e.1 e.2) m from
    h pods []
  intro pods
  induction pods with
  | nil => intro m; rfl
  | cons pod rest ih =>
    intro m
    have hce : containerEntries (pod :: rest) =
        pod.containers.map (fun c => (c.image, podDetailsOf pod c)) ++ containerEntries rest := by
      simp [containerEntries]
    rw [List.foldl_cons, ih, hce, List.foldl_append, List.foldl_map]

/-- Claim C4: the image mapping built by the cluster scan has globally
unique image keys, and the provenance list stored under any image is
exactly the (podName, containerName, namespace) tuple of every container
occurrence of that image, in discovery order.  In particular two pods (or
containers) sharing an image produce one entry with one tuple per
occurrence. -/
theorem queryAllContainerImageRefs_dedup (pods : List K8sPod) (img : String) :
    ((queryAllContainerImageRefsInCluster pods).map Prod.fst).Nodup ∧
    lookupImages (queryAllContainerImageRefsInCluster pods) img =
      ((containerEntries pods).filter (fun e => e.1 == img)).map Prod.snd := by
  rw [queryAll_eq_entriesFold]
  exact ⟨nodup_keys_entriesFold _ _ (by simp),
    by simpa using lookupImages_entriesFold (containerEntries pods) [] img⟩

/-! ## Lemmas: reporting -/

theorem outputNonECR_foldl (dockerImages : List (String × List PodDetails))
    (acc : List String) :
    dockerImages.foldl
      (fun acc e =>
        if !goContains e.1 "amazonaws.com" then acc ++ [formatNonECRLine e.1 e.2] else acc)
      acc =
      acc ++ (nonECRReportEntries dockerImages).map (fun e => formatNonECRLine e.1 e.2) := by
  induction dockerImages generalizing acc with
  | nil => simp [nonECRReportEntries]
  | cons e rest ih =>
    rw [List.foldl_cons, ih]
    by_cases h : goContains e.1 "amazonaws.com" = true
    · simp [nonECRReportEntries, List.filter_cons, h]
    · simp [nonECRReportEntries, List.filter_cons, Bool.eq_false_iff.mpr h]

/-- Claim C6: the non-ECR report consists of exactly one line per image of
the mapping whose reference does not contain `amazonaws.com` — images with
the private-registry suffix are excluded, all others are written verbatim
(the line is the reference itself, a tab, and one parenthesised group per
provenance tuple). -/
theorem outputNonECRImages_exact (dockerImages : List (String × List PodDetails))
    (img : String) (details : List PodDetails) :
    outputNonECRImages dockerImages =
      (nonECRReportEntries dockerImages).map (fun e => formatNonECRLine e.1 e.2) ∧
    ((img, details) ∈ nonECRReportEntries dockerImages ↔
      (img, details) ∈ dockerImages ∧ goContains img "amazonaws.com" = false) := by
  constructor
  · have h0 := outputNonECR_foldl dockerImages []
    rw [outputNonECRImages]
    simpa using h0
  · rw [nonECRReportEntries, List.mem_filter]
    simp

/-- Claim C7: an image none of whose history layers matches any keyword
yields `matchFound = false`, contributes nothing to the accumulated
offending-image list (it is excluded from the match report), and the match
report file is produced only when at least one image matched — otherwise
only the console notice is emitted and no file is created. -/
theorem offending_report_excludes_nonmatches (keywords : List String)
    (histories : String → List String) (images1 images2 : List String) (img : String)
    (hnomatch : ∀ h ∈ histories img, ∀ kw ∈ keywords, keywordMatches h kw = false) :
    (checkImageHistoryForKeyWords keywords img (histories img)).matchFound = false ∧
    processImages keywords histories (images1 ++ img :: images2) =
      processImages keywords histories (images1 ++ images2) ∧
    (outputOffendingImages (processImages keywords histories (images1 ++ img :: images2)) =
        OffendingReport.consoleNotice ↔
      processImages keywords histories (images1 ++ img :: images2) = []) := by
  have hmf : (checkImageHistoryForKeyWords keywords img (histories img)).matchFound = false := by
    rw [checkImageHistoryForKeyWords, checkHistory_matchFound]
    simp only [Bool.false_or, List.any_eq_false]
    intro h hh
    simp only [Bool.not_eq_true, List.any_eq_false]
    intro kw hkw
    simp [hnomatch h hh kw hkw]
  have hskip : processImages keywords histories (images1 ++ img :: images2) =
      processImages keywords histories (images1 ++ images2) := by
    rw [processImages, processImages, List.foldl_append, List.foldl_append, List.foldl_cons]
    simp [hmf]
  refine ⟨hmf, hskip, ?_⟩
  rw [outputOffendingImages]
  cases hp : processImages keywords histories (images1 ++ img :: images2) with
  | nil => simp
  | cons r rest => simp

/-- Witness for C7: with keyword `jdk-14` and a history oracle that returns
a non-matching layer everywhere, the one-image batch produces no results
and only the console notice. -/
theorem offending_report_excludes_nonmatches_witness :
    (∀ h ∈ (fun _ : String => ["RUN echo hello"]) "busybox:1.36",
        ∀ kw ∈ ["jdk-14"], keywordMatches h kw = false) ∧
    (checkImageHistoryForKeyWords ["jdk-14"] "busybox:1.36"
        ((fun _ : String => ["RUN echo hello"]) "busybox:1.36")).matchFound = false ∧
    processImages ["jdk-14"] (fun _ => ["RUN echo hello"]) ([] ++ "busybox:1.36" :: []) =
      processImages ["jdk-14"] (fun _ => ["RUN echo hello"]) ([] ++ []) ∧
    (outputOffendingImages
        (processImages ["jdk-14"] (fun _ => ["RUN echo hello"])
          ([] ++ "busybox:1.36" :: [])) = OffendingReport.consoleNotice ↔
      processImages ["jdk-14"] (fun _ => ["RUN echo hello"])
        ([] ++ "busybox:1.36" :: []) = []) :=
  ⟨by decide,
   offending_report_excludes_nonmatches ["jdk-14"] (fun _ => ["RUN echo hello"]) [] []
     "busybox:1.36" (by decide)⟩

/-! ## Lemmas: credential provisioning -/

theorem mem_keys_mapInsert (m : List (String × String)) (k v a : String) :
    a ∈ (mapInsert m k v).map Prod.fst ↔ a ∈ m.map Prod.fst ∨ a = k := by
  induction m with
  | nil => simp [mapInsert]
  | cons e rest ih =>
    obtain ⟨k', v'⟩ := e
    by_cases hk : k' = k
    · subst hk
      simp [mapInsert]
      tauto
    · simp only [mapInsert, if_neg hk, List.map_cons, List.mem_cons, ih]
      tauto

theorem nodup_keys_mapInsert (m : List (String × String)) (k v : String)
    (h : (m.map Prod.fst).Nodup) : ((mapInsert m k v).map Prod.fst).Nodup := by
  induction m with
  | nil => simp [mapInsert]
  | cons e rest ih =>
    obtain ⟨k', v'⟩ := e
    rw [List.map_cons, List.nodup_cons] at h
    by_cases hk : k' = k
    · subst hk
      simpa [mapInsert] using h
    · rw [mapInsert, if_neg hk, List.map_cons, List.nodup_cons]
      refine ⟨?_, ih h.2⟩
      intro hmem
      rcases (mem_keys_mapInsert rest k v k').mp hmem with hm | hm
      · exact h.1 hm
      · exact hk hm

theorem provision_ok_keys (env : String → TokenFetch) (regions : List String)
    (acc creds : List (String × String))
    (h : provisionCredentials env regions acc = ProvisionOutcome.ok creds) :
    (∀ a, a ∈ creds.map Prod.fst ↔ a ∈ acc.map Prod.fst ∨ a ∈ regions) ∧
    ((acc.map Prod.fst).Nodup → (creds.map Prod.fst).Nodup) := by
  induction regions generalizing acc with
  | nil =>
    rw [provisionCredentials] at h
    cases h
    simp
  | cons region rest ih =>
    rw [provisionCredentials] at h
    cases henv : env region with
    | fetchErr msg =>
      simp only [henv] at h
      cases h
    | decodeErr msg =>
      simp only [henv] at h
      cases h
    | token t =>
      simp only [henv] at h
      cases hsplit : goSplitChar ':' t.data with
      | nil =>
        simp only [hsplit] at h
        cases h
      | cons x tail =>
        cases tail with
        | nil =>
          simp only [hsplit] at h
          cases h
        | cons y tail2 =>
          simp only [hsplit] at h
          obtain ⟨hiff, hnd⟩ := ih (mapInsert acc region (encodeCred ⟨y⟩)) h
          constructor
          · intro a
            rw [hiff a, mem_keys_mapInsert, List.mem_cons]
            tauto
          · intro hacc
            exact hnd (nodup_keys_mapInsert acc region (encodeCred ⟨y⟩) hacc)

/-- Claim C8: whenever the provisioning loop of `NewConfig` completes
without error (token fetch and decode succeeded for every configured
region), the credential map holds exactly one entry per configured region,
keyed by the region.  The map is built once here; every later pipeline
operation (`pullImage`'s credential selection in particular) only reads it
— in this embedding the map is passed to them as an immutable argument. -/
theorem newConfig_credentials_per_region (regions : List String)
    (env : String → TokenFetch) (creds : List (String × String)) (r : String)
    (h : provisionCredentials env regions [] = ProvisionOutcome.ok creds) :
    (r ∈ creds.map Prod.fst ↔ r ∈ regions) ∧ (creds.map Prod.fst).Nodup := by
  obtain ⟨hiff, hnd⟩ := provision_ok_keys env regions [] creds h
  exact ⟨by simpa using hiff r, hnd (by simp)⟩

/-- Witness for C8: one configured region whose token fetch and decode
succeed yields the one-entry credential map keyed by that region. -/
theorem newConfig_credentials_per_region_witness :
    provisionCredentials
        (fun r => if r = "eu-west-1" then TokenFetch.token "AWS:pw"
                  else TokenFetch.fetchErr "no profile")
        ["eu-west-1"] [] = ProvisionOutcome.ok [("eu-west-1", encodeCred "pw")] ∧
    (("eu-west-1" ∈ [("eu-west-1", encodeCred "pw")].map Prod.fst ↔
        "eu-west-1" ∈ ["eu-west-1"]) ∧
      ([("eu-west-1", encodeCred "pw")].map Prod.fst).Nodup) :=
  ⟨rfl,
   newConfig_credentials_per_region ["eu-west-1"]
     (fun r => if r = "eu-west-1" then TokenFetch.token "AWS:pw"
               else TokenFetch.fetchErr "no profile")
     [("eu-west-1", encodeCred "pw")] "eu-west-1" rfl⟩

theorem goSplitChar_no_sep (sep : Char) (s : List Char) (h : sep ∉ s) :
    goSplitChar sep s = [s] := by
  induction s with
  | nil => rfl
  | cons c rest ih =>
    simp only [List.mem_cons, not_or] at h
    have hcs : ¬ c = sep := fun he => h.1 he.symm
    simp only [goSplitChar, if_neg hcs, ih h.2]

/-- Claim C10: if the base64-decoded authorization token of the first
region to be provisioned contains no `":"` separator, the split yields a
single element and `credentialsSlice[1]` indexes past its end:
`NewConfig` crashes with an index-out-of-range panic instead of returning
an error; its error-return behaviour therefore presupposes every decoded
token has the `user:password` form. -/
theorem newConfig_token_missing_colon_panics (region t : String) (rest : List String)
    (env : String → TokenFetch) (acc : List (String × String))
    (henv : env region = TokenFetch.token t) (hnc : ':' ∉ t.data) :
    provisionCredentials env (region :: rest) acc = ProvisionOutcome.panicIndex := by
  rw [provisionCredentials]
  simp only [henv, goSplitChar_no_sep ':' t.data hnc]

/-- Witness for C10: a decoded token without a colon makes the very first
region's provisioning panic. -/
theorem newConfig_token_missing_colon_panics_witness :
    ((fun _ : String => TokenFetch.token "AWSpw") "eu-west-1" =
      TokenFetch.token "AWSpw") ∧ (':' ∉ ("AWSpw" : String).data) ∧
    provisionCredentials (fun _ => TokenFetch.token "AWSpw") ["eu-west-1"] [] =
      ProvisionOutcome.panicIndex :=
  ⟨rfl, by decide,
   newConfig_token_missing_colon_panics "eu-west-1" "AWSpw" [] (fun _ => TokenFetch.token "AWSpw")
     [] rfl (by decide)⟩
